import Mathlib

/-!
Verification of the gt7_dashboard telemetry viewer (src/app.py) against its
natural-language specification.  The relevant logic of the script is embedded
shallowly below: data frames become lists of records, pandas column operations
become list operations, and the Streamlit/GCS plumbing is reduced to the pure
functions of the store contents that the script computes.
-/

namespace GT7

/-! ## Session-to-lap decomposition (src/app.py lines 94-96 and 256-263)

The script never defines a named split_by_lap function; in every tab it
iterates over the distinct values of the current_lap column, in order of first
appearance (pandas Series.unique), and filters the frame by equality with each
value.  We embed Series.unique with an explicit fuel argument so that the
function is structurally recursive and kernel-evaluable. -/

/-- Fuel-indexed first-seen-order deduplication.  With fuel at least the
length of the list it computes pandas Series.unique: the distinct values in
order of first appearance. -/
def uniqueFuel {K : Type} [DecidableEq K] : Nat → List K → List K
  | _, [] => []
  | 0, _ :: _ => []
  | n + 1, x :: xs => x :: uniqueFuel n (xs.filter (fun y => ! decide (y = x)))

/-- Pandas Series.unique: distinct values of a column in order of first
appearance, as used on the current_lap column at src/app.py lines 94 and 256. -/
def pdUnique {K : Type} [DecidableEq K] (l : List K) : List K :=
  uniqueFuel l.length l

/-- Lap splitting as implemented by the tab8 loop (src/app.py lines 256-263):
for each value in the unique list of the current_lap column, the group is the
frame filtered by equality with that value.  The same unique-plus-equality
filter is what tab1 (lines 94-96) applies to the selected lap. -/
def split_by_lap {α K : Type} [DecidableEq K] (lap : α → K) (s : List α) :
    List (K × List α) :=
  (pdUnique (s.map lap)).map (fun v => (v, s.filter (fun a => decide (lap a = v))))

/-- Concatenation of the lap groups in order, the operation the spec quantifies
over when it states that the laps reconstruct the session. -/
def concatLaps {α K : Type} : List (K × List α) → List α
  | [] => []
  | g :: gs => g.snd ++ concatLaps gs

/-- Modelled from the spec: contiguous-run grouping of samples by lap index
(section 4.3 requires that "groups are still formed per contiguous run, and two
non-adjacent runs with the same index yield two separate Lap groups").  This
grouping is absent from src/app.py; it is stated here only to be compared with
the unique-value grouping the source actually performs. -/
def splitRuns {α K : Type} [DecidableEq K] (lap : α → K) : List α → List (List α)
  | [] => []
  | [x] => [[x]]
  | x :: y :: xs =>
    match splitRuns lap (y :: xs) with
    | [] => [[x]]
    | g :: gs => if lap x = lap y then (x :: g) :: gs else [x] :: g :: gs

/-! ## Raw records and the car/track alias chain (src/app.py lines 44-45, 252-255) -/

/-- A raw telemetry record: its string-valued fields (the alias fields among
them) as an association list, and its current_lap value. -/
structure Rec where
  fields : List (String × String)
  current_lap : Int
  deriving DecidableEq

/-- Python dict.get on a record: the value of the first matching key, None when
the key is absent. -/
def pyGet (r : Rec) (k : String) : Option String :=
  (r.fields.find? (fun p => decide (p.fst = k))).map Prod.snd

/-- The chained Python or-expression of src/app.py lines 44-45 and 252-255:
d.get(k1) or d.get(k2) or d.get(k3) or "".  Python or keeps the first truthy
value, so a key that is present with an empty (falsy) value is skipped exactly
like an absent key, and the overall default is the empty string. -/
def firstTruthy (r : Rec) : List String → String
  | [] => ""
  | k :: ks =>
    match pyGet r k with
    | some v => if v = "" then firstTruthy r ks else v
    | none => firstTruthy r ks

/-- Car identifier extraction (src/app.py line 44 and line 252). -/
def carCode (r : Rec) : String :=
  firstTruthy r ["car_code", "car_id", "car"]

/-- Track identifier extraction (src/app.py line 45 and line 254). -/
def trackCode (r : Rec) : String :=
  firstTruthy r ["track_code", "track_id", "track"]

/-- The alias field k is absent or has a falsy (empty) value, the condition
under which the Python or-chain moves past it. -/
def falsyGet (r : Rec) (k : String) : Prop :=
  pyGet r k = none ∨ pyGet r k = some ""

/-! ## Reference table lookup (src/app.py lines 47-48 and 253-255) -/

/-- Guarded first-row lookup in a reference table: cars_df[cars_df[ID] ==
code].iloc[0] if code in cars_df[ID].values else None (src/app.py line 47).
A table row is (ID, display name). -/
def lookupRef (table : List (String × String)) (code : String) :
    Option (String × String) :=
  if table.any (fun row => decide (row.fst = code)) then
    table.find? (fun row => decide (row.fst = code))
  else none

/-- Name resolution with raw-code fallback (src/app.py lines 253 and 255): the
display name of the matching row when the code is known, the raw code itself
otherwise. -/
def resolveName (table : List (String × String)) (code : String) : String :=
  match lookupRef table code with
  | some row => row.snd
  | none => code

/-- Session decoding (src/app.py lines 42-45): the first record of the payload
supplies the car and track identifiers.  An empty payload makes
session_data[0] raise, modelled as none. -/
def decodeSession (session_data : List Rec) : Option (String × String) :=
  match session_data with
  | [] => none
  | first :: _ => some (carCode first, trackCode first)

/-! ## Per-lap views, column-missing fallback (src/app.py lines 94-96, 112-114, 132-134) -/

/-- A telemetry row as seen by tabs 1-3: only the current_lap field matters,
and it may be absent from the record (none). -/
structure TRec where
  current_lap : Option Int
  deriving DecidableEq

/-- A DataFrame built from records has a current_lap column exactly when some
record carries the field. -/
def hasLapColumn (df : List TRec) : Bool :=
  df.any (fun r => r.current_lap.isSome)

/-- Lap options before sorting (src/app.py line 94): the unique values of the
current_lap column when it exists, the literal fallback list [0] otherwise. -/
def tab1Laps (df : List TRec) : List (Option Int) :=
  if hasLapColumn df then pdUnique (df.map (fun r => r.current_lap)) else [some 0]

/-- Sort key for lap options; a missing value (NaN) is given a fixed key, an
ordering the spec leaves unspecified. -/
def lapSortKey (a : Option Int) : Int := a.getD 0

/-- The options offered by the lap selectbox (src/app.py line 95): the lap
values sorted ascending. -/
def tab1Options (df : List TRec) : List (Option Int) :=
  List.insertionSort (fun a b => lapSortKey a ≤ lapSortKey b) (tab1Laps df)

/-- The frame used for plotting (src/app.py line 96): filtered by the selected
lap when the column exists, the whole frame otherwise. -/
def lapFrame (df : List TRec) (sel : Option Int) : List TRec :=
  if hasLapColumn df then df.filter (fun r => decide (r.current_lap = sel)) else df

/-! ## Comparison tab aggregation loop (src/app.py lines 244-263) -/

/-- A raw downloaded payload: either a JSON array of records, or a non-sequence
JSON value carrying only its Python truthiness. -/
inductive Raw : Type
  | arr (records : List Rec)
  | scalar (truthy : Bool)
  deriving DecidableEq

/-- Python truthiness of a payload: an array is truthy when non-empty. -/
def pyTruthy : Raw → Bool
  | Raw.arr rs => ! rs.isEmpty
  | Raw.scalar b => b

/-- One comparison entry appended by the tab8 loop (src/app.py lines 257-263). -/
structure Entry where
  session : String
  car : String
  track : String
  lap : Int
  data : List Rec
  deriving DecidableEq

/-- The per-file body of the tab8 loop after the guard (src/app.py lines
249-263): resolve car and track names from the first record, then one entry per
unique current_lap value with the equality-filtered frame. -/
def entriesOf (cars tracks : List (String × String)) (name : String)
    (rs : List Rec) : List Entry :=
  match rs with
  | [] => []
  | first :: _ =>
    (pdUnique (rs.map (fun r => r.current_lap))).map (fun lapv =>
      { session := name
        car := resolveName cars (carCode first)
        track := resolveName tracks (trackCode first)
        lap := lapv
        data := rs.filter (fun r => decide (r.current_lap = lapv)) })

/-- Processing of one selected file in tab8 (src/app.py lines 246-263): a falsy
payload is skipped by the guard (if not data: continue); a truthy array is
turned into entries; a truthy non-sequence value reaches pd.DataFrame, which
raises on scalar input, modelled as an error. -/
def processFile (cars tracks : List (String × String)) (file : String × Raw) :
    Except String (List Entry) :=
  if pyTruthy file.snd then
    match file.snd with
    | Raw.arr rs => Except.ok (entriesOf cars tracks file.fst rs)
    | Raw.scalar _ => Except.error "DataFrame conversion failed"
  else Except.ok []

/-- The tab8 comparison loop over the selected files (src/app.py lines
246-263).  A raised exception aborts the whole loop, so an error from any file
is the result of the loop. -/
def compareLoop (cars tracks : List (String × String)) :
    List (String × Raw) → Except String (List Entry)
  | [] => Except.ok []
  | f :: fs =>
    match processFile cars tracks f with
    | Except.error e => Except.error e
    | Except.ok es =>
      match compareLoop cars tracks fs with
      | Except.error e => Except.error e
      | Except.ok rest => Except.ok (es ++ rest)

/-! ## Selection bounds (src/app.py lines 244 and 268) -/

/-- The max_selections argument of the session multiselect (src/app.py line 244). -/
def compare_files_max : Nat := 4

/-- The max_selections argument of the lap multiselect (src/app.py line 268). -/
def selected_laps_max : Nat := 4

/-- Modelled from the spec: the bounded multiselect widget state transition is
enforced by the UI framework, not by code under src/; section 4.4 requires that
selection of more than max sessions is rejected before computation.  Selecting
a further item appends it only while the bound is not yet reached; otherwise
the selection is left unchanged. -/
def multiselectAdd (maxSel : Nat) (selected : List String) (choice : String) :
    List String :=
  if selected.length < maxSel then selected ++ [choice] else selected

/-! ## Telemetry fetch (src/app.py lines 22-27) -/

/-- load_gcs_json (src/app.py lines 22-27): every call downloads the blob from
the store; there is no cache decorator on this function (only load_metadata,
which reads the reference CSVs, is cached).  The embedding threads an explicit
remote-call counter: one download per call. -/
def load_gcs_json (store : String → List Rec) (blob_name : String)
    (remote_calls : Nat) : List Rec × Nat :=
  (store blob_name, remote_calls + 1)

/-! ## Leaderboard best lap (absent from src/app.py) -/

/-- Modelled from the spec: best_lap(session) is the minimum of a designated
lap-time-like field over the session (section 4.4); no leaderboard or best-lap
computation exists in src/app.py. -/
def best_lap (times : List ℚ) : Option ℚ :=
  match times with
  | [] => none
  | t :: ts => some (ts.foldl min t)

/-- Modelled from the spec: the session contributes a leaderboard entry only
when best_lap is strictly positive (section 4.4). -/
def leaderboardEntry (times : List ℚ) : Option ℚ :=
  match best_lap times with
  | some m => if 0 < m then some m else none
  | none => none

/-! ## Action classification (src/app.py lines 157-163) -/

/-- The classify closure of tab4: Brake when brake exceeds 0.1, else Accelerate
when throttle exceeds 0.1, else Coast. -/
def classify (brake throttle : ℚ) : String :=
  if (1 : ℚ) / 10 < brake then "Brake"
  else if (1 : ℚ) / 10 < throttle then "Accelerate"
  else "Coast"

/-! ## Concrete inputs used by counterexamples and witnesses -/

/-- A session whose lap indices are non-monotonic: two non-adjacent contiguous
runs share the lap index 0.  Samples are (position, lap_index). -/
def cexA : List (Nat × Int) := [(0, 0), (1, 1), (2, 0)]

/-- The same shape of non-monotonic session, used for the reconstruction
counterexample. -/
def cexB : List (Nat × Int) := [(0, 0), (1, 1), (2, 0)]

/-- A record whose car_code field is present but empty, with a non-empty
car_id. -/
def cexC : Rec := { fields := [("car_code", ""), ("car_id", "gtr")], current_lap := 0 }

/-- A well-formed record for comparison-loop inputs. -/
def recA : Rec := { fields := [("car_code", "gr3")], current_lap := 0 }

/-- Three selected files: two well-formed sessions around one malformed
(truthy non-sequence) payload. -/
def cexFiles : List (String × Raw) :=
  [("a.json", Raw.arr [recA]), ("bad.json", Raw.scalar true), ("c.json", Raw.arr [recA])]

/-- The same selection without the malformed file. -/
def goodFiles : List (String × Raw) :=
  [("a.json", Raw.arr [recA]), ("c.json", Raw.arr [recA])]

/-- Whether an Except value is a success. -/
def exceptOk {ε α : Type} : Except ε α → Bool
  | Except.ok _ => true
  | Except.error _ => false

/-- A record carrying only non-car alias fields, used by the alias witness. -/
def wRec : Rec := { fields := [("car_id", "gtr"), ("track", "spa")], current_lap := 0 }

/-- The spec example of lap times containing a zero: [0, 98.2, 97.5]. -/
def cexTimes : List ℚ := [0, 982 / 10, 975 / 10]

/-- A session with monotonic non-decreasing lap indices, used as witness input
for the reconstruction theorem. -/
def wSorted : List (Nat × Int) := [(0, 0), (1, 0), (2, 1)]

/-! ## Helper lemmas about the first-seen-order unique list -/

theorem uniqueFuel_congr {K : Type} [DecidableEq K] :
    ∀ (n m : Nat) (l : List K), l.length ≤ n → l.length ≤ m →
      uniqueFuel n l = uniqueFuel m l := by
  intro n
  induction n with
  | zero =>
    intro m l hn _
    have : l = [] := List.length_eq_zero.mp (Nat.le_zero.mp hn)
    subst this
    cases m <;> rfl
  | succ n ih =>
    intro m l hn hm
    cases l with
    | nil => cases m <;> rfl
    | cons x xs =>
      cases m with
      | zero => exact absurd hm (by simp)
      | succ m =>
        simp only [uniqueFuel]
        have hlen : (xs.filter (fun y => ! decide (y = x))).length ≤ xs.length :=
          List.length_filter_le _ _
        have hxs_n : xs.length ≤ n := by simpa using hn
        have hxs_m : xs.length ≤ m := by simpa using hm
        rw [ih m (xs.filter (fun y => ! decide (y = x)))
          (le_trans hlen hxs_n) (le_trans hlen hxs_m)]

theorem pdUnique_nil {K : Type} [DecidableEq K] : pdUnique ([] : List K) = [] := rfl

theorem pdUnique_cons {K : Type} [DecidableEq K] (x : K) (xs : List K) :
    pdUnique (x :: xs) = x :: pdUnique (xs.filter (fun y => ! decide (y = x))) := by
  show uniqueFuel (xs.length + 1) (x :: xs) = _
  simp only [uniqueFuel, pdUnique]
  rw [uniqueFuel_congr xs.length (xs.filter (fun y => ! decide (y = x))).length
    (xs.filter (fun y => ! decide (y = x))) (List.length_filter_le _ _) le_rfl]

theorem mem_pdUnique {K : Type} [DecidableEq K] {a : K} :
    ∀ {l : List K}, a ∈ pdUnique l ↔ a ∈ l := by
  suffices h : ∀ (n : Nat) (l : List K), l.length ≤ n → (a ∈ pdUnique l ↔ a ∈ l) by
    intro l
    exact h l.length l le_rfl
  intro n
  induction n with
  | zero =>
    intro l hn
    have : l = [] := List.length_eq_zero.mp (Nat.le_zero.mp hn)
    subst this
    simp [pdUnique_nil]
  | succ n ih =>
    intro l hn
    cases l with
    | nil => simp [pdUnique_nil]
    | cons x xs =>
      have hxs : xs.length ≤ n := by simpa using hn
      have hflt : (xs.filter (fun y => ! decide (y = x))).length ≤ n :=
        le_trans (List.length_filter_le _ _) hxs
      rw [pdUnique_cons]
      by_cases hax : a = x
      · subst hax
        simp
      · simp only [List.mem_cons, hax, false_or]
        rw [ih _ hflt]
        simp [List.mem_filter, hax]

theorem nodup_pdUnique {K : Type} [DecidableEq K] :
    ∀ (l : List K), (pdUnique l).Nodup := by
  suffices h : ∀ (n : Nat) (l : List K), l.length ≤ n → (pdUnique l).Nodup by
    intro l
    exact h l.length l le_rfl
  intro n
  induction n with
  | zero =>
    intro l hn
    have : l = [] := List.length_eq_zero.mp (Nat.le_zero.mp hn)
    subst this
    simp [pdUnique_nil]
  | succ n ih =>
    intro l hn
    cases l with
    | nil => simp [pdUnique_nil]
    | cons x xs =>
      have hxs : xs.length ≤ n := by simpa using hn
      have hflt : (xs.filter (fun y => ! decide (y = x))).length ≤ n :=
        le_trans (List.length_filter_le _ _) hxs
      rw [pdUnique_cons, List.nodup_cons]
      constructor
      · intro hmem
        have := mem_pdUnique.mp hmem
        simp [List.mem_filter] at this
      · exact ih _ hflt

/-! ## Permutation and reconstruction lemmas for the lap split -/

theorem filter_sub {α K : Type} [DecidableEq K] (lap : α → K) {v k : K}
    (hvk : v ≠ k) :
    ∀ (s : List α), s.filter (fun a => decide (lap a = v)) =
      (s.filter (fun a => ! decide (lap a = k))).filter
        (fun a => decide (lap a = v)) := by
  intro s
  induction s with
  | nil => rfl
  | cons x t ih =>
    by_cases hx : lap x = k
    · have hxv : (decide (lap x = v)) = false := by
        rw [decide_eq_false_iff_not]
        intro h
        exact hvk (by rw [← h, hx])
      simp [List.filter_cons, hx, hxv, ih]
      exact fun h => hvk h.symm
    · simp only [List.filter_cons, decide_eq_true_eq, hx, decide_False,
        Bool.not_false, if_true]
      by_cases hv : lap x = v
      · simp [List.filter_cons, hv, ih]
      · simp [List.filter_cons, hv, ih]

theorem concat_map_congr {α K : Type} :
    ∀ (ks : List K) (f g : K → K × List α), (∀ v ∈ ks, f v = g v) →
      concatLaps (ks.map f) = concatLaps (ks.map g) := by
  intro ks
  induction ks with
  | nil => intro f g _; rfl
  | cons k ks ih =>
    intro f g h
    simp only [List.map_cons, concatLaps]
    rw [h k (by simp), ih f g (fun v hv => h v (by simp [hv]))]

theorem perm_aux {α K : Type} [DecidableEq K] (lap : α → K) :
    ∀ (ks : List K) (s : List α), ks.Nodup → (∀ a ∈ s, lap a ∈ ks) →
      List.Perm
        (concatLaps (ks.map (fun v => (v, s.filter (fun a => decide (lap a = v))))))
        s := by
  intro ks
  induction ks with
  | nil =>
    intro s _ hall
    cases s with
    | nil => exact List.Perm.refl _
    | cons a t => exact absurd (hall a (by simp)) (by simp)
  | cons k ks ih =>
    intro s hnd hall
    have hk_not : k ∉ ks := (List.nodup_cons.mp hnd).1
    have hnd' : ks.Nodup := (List.nodup_cons.mp hnd).2
    simp only [List.map_cons, concatLaps]
    have hcongr :
        concatLaps (ks.map (fun v => (v, s.filter (fun a => decide (lap a = v))))) =
        concatLaps (ks.map (fun v =>
          (v, (s.filter (fun a => ! decide (lap a = k))).filter
            (fun a => decide (lap a = v))))) := by
      apply concat_map_congr
      intro v hv
      have hvk : v ≠ k := fun h => hk_not (h ▸ hv)
      rw [filter_sub lap hvk s]
    rw [hcongr]
    have htail :
        List.Perm
          (concatLaps (ks.map (fun v =>
            (v, (s.filter (fun a => ! decide (lap a = k))).filter
              (fun a => decide (lap a = v))))))
          (s.filter (fun a => ! decide (lap a = k))) := by
      apply ih _ hnd'
      intro a ha
      have hmem := List.mem_filter.mp ha
      have hne : ¬ lap a = k := by
        have := hmem.2
        simp only [Bool.not_eq_true', decide_eq_false_iff_not] at this
        exact this
      have := hall a hmem.1
      simp only [List.mem_cons] at this
      exact this.resolve_left hne
    exact List.Perm.trans (List.Perm.append_left _ htail)
      (List.filter_append_perm _ s)

theorem concat_split_perm {α K : Type} [DecidableEq K] (lap : α → K)
    (s : List α) : List.Perm (concatLaps (split_by_lap lap s)) s := by
  unfold split_by_lap
  exact perm_aux lap (pdUnique (s.map lap)) s (nodup_pdUnique _)
    (fun a ha => mem_pdUnique.mpr (List.mem_map_of_mem lap ha))

theorem filter_all_true {α : Type} (p : α → Bool) :
    ∀ (l : List α), (∀ a ∈ l, p a = true) → l.filter p = l := by
  intro l
  induction l with
  | nil => intro _; rfl
  | cons x t ih =>
    intro h
    rw [List.filter_cons, if_pos (h x (by simp)), ih (fun a ha => h a (by simp [ha]))]

theorem filter_all_false {α : Type} (p : α → Bool) :
    ∀ (l : List α), (∀ a ∈ l, p a = false) → l.filter p = [] := by
  intro l
  induction l with
  | nil => intro _; rfl
  | cons x t ih =>
    intro h
    rw [List.filter_cons, if_neg (by simp [h x (by simp)]),
      ih (fun a ha => h a (by simp [ha]))]

theorem mem_takeWhile_pred {α : Type} (p : α → Bool) :
    ∀ (l : List α) (a : α), a ∈ l.takeWhile p → p a = true := by
  intro l
  induction l with
  | nil => intro a h; simp [List.takeWhile] at h
  | cons x t ih =>
    intro a h
    rw [List.takeWhile_cons] at h
    by_cases hx : p x = true
    · rw [if_pos hx] at h
      rcases List.mem_cons.mp h with rfl | h
      · exact hx
      · exact ih a h
    · rw [if_neg hx] at h
      simp at h

theorem head_dropWhile_false {α : Type} (p : α → Bool) :
    ∀ (l : List α) (y : α) (ys : List α), l.dropWhile p = y :: ys →
      p y = false := by
  intro l
  induction l with
  | nil => intro y ys h; simp [List.dropWhile] at h
  | cons x t ih =>
    intro y ys h
    rw [List.dropWhile_cons] at h
    by_cases hx : p x = true
    · rw [if_pos hx] at h
      exact ih y ys h
    · rw [if_neg hx] at h
      cases h
      rwa [Bool.not_eq_true] at hx

theorem concat_split_sorted_aux {α K : Type} [DecidableEq K] [LinearOrder K]
    (lap : α → K) :
    ∀ (n : Nat) (s : List α), s.length ≤ n →
      List.Pairwise (fun a b => lap a ≤ lap b) s →
      concatLaps (split_by_lap lap s) = s := by
  intro n
  induction n with
  | zero =>
    intro s hn _
    have : s = [] := List.length_eq_zero.mp (Nat.le_zero.mp hn)
    subst this
    rfl
  | succ n ih =>
    intro s hn hpw
    cases s with
    | nil => rfl
    | cons x t =>
      have hx_le : ∀ a ∈ t, lap x ≤ lap a := (List.pairwise_cons.mp hpw).1
      have ht_pw : List.Pairwise (fun a b => lap a ≤ lap b) t :=
        (List.pairwise_cons.mp hpw).2
      have ht12 : t.takeWhile (fun a => decide (lap a = lap x)) ++
          t.dropWhile (fun a => decide (lap a = lap x)) = t :=
        List.takeWhile_append_dropWhile _ _
      have hA : ∀ a ∈ t.takeWhile (fun a => decide (lap a = lap x)),
          lap a = lap x :=
        fun a ha => of_decide_eq_true (mem_takeWhile_pred _ t a ha)
      have hB : ∀ b ∈ t.dropWhile (fun a => decide (lap a = lap x)),
          ¬ lap b = lap x := by
        cases hdw : t.dropWhile (fun a => decide (lap a = lap x)) with
        | nil => intro b hb; simp at hb
        | cons y ys =>
          intro b hb
          have hy_ne : ¬ lap y = lap x := by
            have := head_dropWhile_false _ t y ys hdw
            simpa [decide_eq_false_iff_not] using this
          have hy_mem_t : y ∈ t := by
            rw [← ht12, hdw]
            exact List.mem_append.mpr (Or.inr (by simp))
          have hy_gt : lap x < lap y :=
            lt_of_le_of_ne (hx_le y hy_mem_t) (fun h => hy_ne h.symm)
          rcases List.mem_cons.mp hb with rfl | hb_mem
          · exact hy_ne
          · have ht2_pw : List.Pairwise (fun a b => lap a ≤ lap b) (y :: ys) := by
              rw [← ht12, hdw] at ht_pw
              exact (List.pairwise_append.mp ht_pw).2.1
            have hyb : lap y ≤ lap b := (List.pairwise_cons.mp ht2_pw).1 b hb_mem
            exact fun h => absurd (h ▸ (lt_of_lt_of_le hy_gt hyb)) (lt_irrefl _)
      have hkeys : pdUnique ((x :: t).map lap) =
          lap x :: pdUnique ((t.dropWhile (fun a => decide (lap a = lap x))).map lap) := by
        rw [List.map_cons, pdUnique_cons]
        congr 1
        congr 1
        rw [← ht12, List.map_append, List.filter_append]
        rw [filter_all_false _ _ (by
          intro z hz
          obtain ⟨a, ha, rfl⟩ := List.mem_map.mp hz
          simp [hA a ha]),
          filter_all_true _ _ (by
          intro z hz
          obtain ⟨b, hb, rfl⟩ := List.mem_map.mp hz
          simp [hB b hb])]
        simp
      have hfirst : (x :: t).filter (fun a => decide (lap a = lap x)) =
          x :: t.takeWhile (fun a => decide (lap a = lap x)) := by
        rw [List.filter_cons, if_pos (by simp)]
        congr 1
        rw [← ht12, List.filter_append]
        rw [filter_all_true _ _ (fun a ha => by simp [hA a ha]),
          filter_all_false _ _ (fun b hb => by simp [hB b hb])]
        simp
      have hrest : ∀ v ∈ pdUnique
          ((t.dropWhile (fun a => decide (lap a = lap x))).map lap),
          (x :: t).filter (fun a => decide (lap a = v)) =
          (t.dropWhile (fun a => decide (lap a = lap x))).filter
            (fun a => decide (lap a = v)) := by
        intro v hv
        obtain ⟨b0, hb0, rfl⟩ := List.mem_map.mp (mem_pdUnique.mp hv)
        have hv_ne : ¬ lap b0 = lap x := hB b0 hb0
        rw [List.filter_cons, if_neg (by simp; exact fun h => hv_ne h.symm)]
        rw [← ht12, List.filter_append]
        rw [filter_all_false _ _ (by
          intro a ha
          simp only [decide_eq_false_iff_not]
          intro h
          exact hv_ne (h.symm.trans (hA a ha)))]
        simp
      show concatLaps ((pdUnique ((x :: t).map lap)).map
        (fun v => (v, (x :: t).filter (fun a => decide (lap a = v))))) = x :: t
      rw [hkeys]
      simp only [List.map_cons, concatLaps]
      rw [hfirst]
      have htail_eq : concatLaps
          ((pdUnique ((t.dropWhile (fun a => decide (lap a = lap x))).map lap)).map
            (fun v => (v, (x :: t).filter (fun a => decide (lap a = v))))) =
          concatLaps
          ((pdUnique ((t.dropWhile (fun a => decide (lap a = lap x))).map lap)).map
            (fun v => (v, (t.dropWhile (fun a => decide (lap a = lap x))).filter
              (fun a => decide (lap a = v))))) := by
        apply concat_map_congr
        intro v hv
        rw [hrest v hv]
      rw [htail_eq]
      have hlen2 : (t.dropWhile (fun a => decide (lap a = lap x))).length ≤ n := by
        have h1 : (t.takeWhile (fun a => decide (lap a = lap x))).length +
            (t.dropWhile (fun a => decide (lap a = lap x))).length = t.length := by
          rw [← List.length_append, ht12]
        have h2 : t.length ≤ n := by simpa using hn
        omega
      have ht2_pw : List.Pairwise (fun a b => lap a ≤ lap b)
          (t.dropWhile (fun a => decide (lap a = lap x))) := by
        rw [← ht12] at ht_pw
        exact (List.pairwise_append.mp ht_pw).2.1
      have := ih (t.dropWhile (fun a => decide (lap a = lap x))) hlen2 ht2_pw
      unfold split_by_lap at this
      rw [this]
      rw [List.cons_append, ht12]

/-! ## Claim C1: grouping of samples into laps -/

/-- C1 counterexample: on a session with two non-adjacent contiguous runs of
lap index 0, the lap split of the source (unique values plus equality filter)
produces 2 groups, whereas the grouping the claim requires (one group per
contiguous run, as modelled by splitRuns from the spec) produces 3 groups:
the source merges the two runs of index 0 into one Lap group. -/
theorem split_by_lap_merges_nonadjacent_runs :
    (split_by_lap (fun p : Nat × Int => p.snd) cexA).length = 2 ∧
    (splitRuns (fun p : Nat × Int => p.snd) cexA).length = 3 ∧
    ((0, 0) : Nat × Int) ∈ (split_by_lap (fun p : Nat × Int => p.snd) cexA).head!.snd ∧
    ((2, 0) : Nat × Int) ∈ (split_by_lap (fun p : Nat × Int => p.snd) cexA).head!.snd := by
  refine ⟨rfl, rfl, ?_, ?_⟩ <;> decide

/-- C1 (amended): split_by_lap groups samples by unique lap_index value in
first-seen order, one group per distinct value; each group contains exactly
the samples whose lap_index equals its key, so two non-adjacent contiguous
runs with the same value are merged into a single Lap group. -/
theorem split_by_lap_unique_value_groups {α : Type} (lap : α → Int) (s : List α) :
    ((split_by_lap lap s).map Prod.fst).Nodup ∧
    (∀ p ∈ split_by_lap lap s, ∀ a ∈ p.snd, lap a = p.fst) ∧
    (∀ p ∈ split_by_lap lap s, ∀ a ∈ s, lap a = p.fst → a ∈ p.snd) := by
  refine ⟨?_, ?_, ?_⟩
  · unfold split_by_lap
    rw [List.map_map]
    have h : (Prod.fst ∘ fun v => (v, s.filter (fun a => decide (lap a = v)))) =
        (id : Int → Int) := rfl
    rw [h, List.map_id]
    exact nodup_pdUnique _
  · intro p hp a ha
    unfold split_by_lap at hp
    obtain ⟨v, _, rfl⟩ := List.mem_map.mp hp
    exact of_decide_eq_true (List.mem_filter.mp ha).2
  · intro p hp a ha hlap
    unfold split_by_lap at hp
    obtain ⟨v, _, rfl⟩ := List.mem_map.mp hp
    exact List.mem_filter.mpr ⟨ha, decide_eq_true hlap⟩

/-- Witness for the amended C1 theorem: on the concrete non-monotonic session,
the sample (2, 0) from the second run of lap index 0 lands in the group keyed
by 0, the same group that holds the first run. -/
theorem split_by_lap_unique_value_groups_witness :
    ((2, 0) : Nat × Int) ∈
      (((0 : Int), cexA.filter (fun a => decide (a.snd = (0 : Int))))).snd :=
  (split_by_lap_unique_value_groups (fun p => p.snd) cexA).2.2
    ((0 : Int), cexA.filter (fun a => decide (a.snd = (0 : Int))))
    (by decide) ((2, 0) : Nat × Int) (by decide) (by decide)

/-! ## Claim C2: reconstruction of the session from its laps -/

/-- C2 counterexample: on a session with non-monotonic lap indices,
concatenating the laps produced by the source in order does not reproduce the
session: the two runs of lap index 0 are emitted together before lap 1, so the
global sample order changes. -/
theorem concat_split_ne_session :
    concatLaps (split_by_lap (fun p : Nat × Int => p.snd) cexB) ≠ cexB := by
  decide

/-- C2 (amended): concatenating the laps of split_by_lap in order yields the
samples of the session with no loss and no duplication (a permutation), each
lap keeps its samples in their original relative order (it is a sublist of the
session), and when the lap indices are monotonic non-decreasing the
concatenation reproduces the session exactly. -/
theorem split_by_lap_reconstruction {α : Type} (lap : α → Int) (s : List α) :
    List.Perm (concatLaps (split_by_lap lap s)) s ∧
    (∀ p ∈ split_by_lap lap s, List.Sublist p.snd s) ∧
    (List.Pairwise (fun a b => lap a ≤ lap b) s →
      concatLaps (split_by_lap lap s) = s) := by
  refine ⟨concat_split_perm lap s, ?_, ?_⟩
  · intro p hp
    unfold split_by_lap at hp
    obtain ⟨v, _, rfl⟩ := List.mem_map.mp hp
    exact List.filter_sublist s
  · intro hpw
    exact concat_split_sorted_aux lap s.length s le_rfl hpw

/-- Witness for the amended C2 theorem: on a session with monotonic lap
indices the concatenation of the laps is the session itself. -/
theorem split_by_lap_reconstruction_witness :
    concatLaps (split_by_lap (fun p : Nat × Int => p.snd) wSorted) = wSorted :=
  (split_by_lap_reconstruction (fun p => p.snd) wSorted).2.2 (by decide)

/-! ## Claim C3: car and track alias identifiers -/

theorem firstTruthy3 (r : Rec) (k1 k2 k3 : String) (v : String) (hv : v ≠ "") :
    (pyGet r k1 = some v → firstTruthy r [k1, k2, k3] = v) ∧
    (falsyGet r k1 → pyGet r k2 = some v → firstTruthy r [k1, k2, k3] = v) ∧
    (falsyGet r k1 → falsyGet r k2 → pyGet r k3 = some v →
      firstTruthy r [k1, k2, k3] = v) ∧
    (falsyGet r k1 → falsyGet r k2 → falsyGet r k3 →
      firstTruthy r [k1, k2, k3] = "") := by
  refine ⟨?_, ?_, ?_, ?_⟩
  · intro h1
    simp [firstTruthy, h1, hv]
  · intro hf1 h2
    rcases hf1 with h0 | h0 <;> simp [firstTruthy, h0, h2, hv]
  · intro hf1 hf2 h3
    rcases hf1 with h0 | h0 <;> rcases hf2 with h1 | h1 <;>
      simp [firstTruthy, h0, h1, h3, hv]
  · intro hf1 hf2 hf3
    rcases hf1 with h0 | h0 <;> rcases hf2 with h1 | h1 <;>
      rcases hf3 with h2 | h2 <;> simp [firstTruthy, h0, h1, h2]

/-- C3 counterexample: a record whose car_code alias is present but carries the
empty string, with car_id "gtr".  The claim says the identifier is the value of
the first alias that is present, hence "", but the Python or-chain skips the
falsy value and the source yields "gtr". -/
theorem carCode_skips_present_empty_alias :
    pyGet cexC "car_code" = some "" ∧ carCode cexC = "gtr" ∧ carCode cexC ≠ "" := by
  exact ⟨by decide, by decide, by decide⟩

/-- C3 (amended): the car (resp. track) identifier is the value of the first
alias in priority order car_code, car_id, car (resp. track_code, track_id,
track) that is present with a truthy (non-empty) value; a present alias with an
empty value is skipped like an absent one, and when every alias is absent or
empty the identifier is the empty string rather than an error. -/
theorem alias_priority_truthy (r : Rec) (v : String) (hv : v ≠ "") :
    ((pyGet r "car_code" = some v → carCode r = v) ∧
     (falsyGet r "car_code" → pyGet r "car_id" = some v → carCode r = v) ∧
     (falsyGet r "car_code" → falsyGet r "car_id" → pyGet r "car" = some v →
       carCode r = v) ∧
     (falsyGet r "car_code" → falsyGet r "car_id" → falsyGet r "car" →
       carCode r = "")) ∧
    ((pyGet r "track_code" = some v → trackCode r = v) ∧
     (falsyGet r "track_code" → pyGet r "track_id" = some v → trackCode r = v) ∧
     (falsyGet r "track_code" → falsyGet r "track_id" → pyGet r "track" = some v →
       trackCode r = v) ∧
     (falsyGet r "track_code" → falsyGet r "track_id" → falsyGet r "track" →
       trackCode r = "")) :=
  ⟨firstTruthy3 r "car_code" "car_id" "car" v hv,
   firstTruthy3 r "track_code" "track_id" "track" v hv⟩

/-- Witness for the amended C3 theorem: a record with only car_id and track
aliases resolves through the priority chain. -/
theorem alias_priority_truthy_witness :
    carCode wRec = "gtr" ∧ trackCode wRec = "spa" :=
  ⟨(alias_priority_truthy wRec "gtr" (by decide)).1.2.1 (Or.inl (by decide))
      (by decide),
   (alias_priority_truthy wRec "spa" (by decide)).2.2.2.1 (Or.inl (by decide))
      (Or.inl (by decide)) (by decide)⟩

/-! ## Claim C4: total reference lookup with raw-code fallback -/

/-- C4 (confirmed): reference lookup is total: every code either resolves to a
matching row of the table (and the displayed name is that row), or the lookup
is the explicit none sentinel, no row matches, and the displayed name falls
back to the raw code itself; no other outcome exists. -/
theorem lookupRef_total (table : List (String × String)) (code : String) :
    (∃ row, lookupRef table code = some row ∧ row ∈ table ∧ row.fst = code ∧
      resolveName table code = row.snd) ∨
    (lookupRef table code = none ∧ (∀ row ∈ table, row.fst ≠ code) ∧
      resolveName table code = code) := by
  by_cases h : (table.any fun row => decide (row.fst = code)) = true
  · left
    obtain ⟨x, hx_mem, hx_p⟩ := List.any_eq_true.mp h
    cases hfind : table.find? (fun row => decide (row.fst = code)) with
    | none =>
      exact absurd hx_p (by simpa using List.find?_eq_none.mp hfind x hx_mem)
    | some r =>
      have hp := List.find?_some hfind
      have hpc : r.fst = code := by simpa using hp
      refine ⟨r, ?_, List.mem_of_find?_eq_some hfind, hpc, ?_⟩
      · unfold lookupRef
        rw [if_pos h, hfind]
      · simp [resolveName, lookupRef, h, hfind]
  · right
    have hnone : lookupRef table code = none := by
      unfold lookupRef
      rw [if_neg h]
    refine ⟨hnone, ?_, ?_⟩
    · intro row hrow hcode
      exact h (List.any_eq_true.mpr ⟨row, hrow, decide_eq_true hcode⟩)
    · simp [resolveName, hnone]

/-- Witness for the C4 theorem: looking up an unknown code displays the raw
code itself instead of raising. -/
theorem lookupRef_total_witness :
    resolveName [("gr3", "GTR")] "zzz" = "zzz" := by
  rcases lookupRef_total [("gr3", "GTR")] "zzz" with ⟨r, hsome, _, _, _⟩ | ⟨_, _, hres⟩
  · have hn : lookupRef [("gr3", "GTR")] "zzz" = none := by decide
    rw [hn] at hsome
    cases hsome
  · exact hres

/-! ## Claim C5: skipping of bad payloads during comparison -/

/-- C5 counterexample: the comparison loop over two well-formed sessions and
one malformed (truthy non-sequence) payload aborts with the conversion error;
removing the malformed file makes the same loop succeed.  The malformed
payload is not skipped and it does blank the processing of the other
sessions. -/
theorem compareLoop_aborts_on_malformed :
    compareLoop [] [] cexFiles = Except.error "DataFrame conversion failed" ∧
    exceptOk (compareLoop [] [] goodFiles) = true :=
  ⟨rfl, rfl⟩

/-- C5 (amended): decoding fails only when the payload is empty (or not a
record sequence at all), and during comparison a falsy payload, such as an
empty record list, is skipped without affecting the entries computed for the
other selected sessions; a truthy non-sequence payload, however, is not
skipped: its conversion error aborts the whole comparison loop. -/
theorem compareLoop_skips_falsy (cars tracks : List (String × String))
    (f : String × Raw) (hf : pyTruthy f.snd = false) :
    (∀ pre post, compareLoop cars tracks (pre ++ f :: post) =
      compareLoop cars tracks (pre ++ post)) ∧
    (∀ rs : List Rec, (decodeSession rs).isSome ↔ rs ≠ []) := by
  constructor
  · intro pre post
    induction pre with
    | nil =>
      simp only [List.nil_append]
      cases h : compareLoop cars tracks post <;>
        simp [compareLoop, processFile, hf, h]
    | cons a pre ih =>
      simp only [List.cons_append, compareLoop]
      have ih2 : compareLoop cars tracks (pre.append (f :: post)) =
          compareLoop cars tracks (pre.append post) := ih
      rw [ih2]
  · intro rs
    cases rs <;> simp [decodeSession]

/-- Witness for the amended C5 theorem: dropping a falsy (empty) payload from
the selection leaves the comparison result unchanged. -/
theorem compareLoop_skips_falsy_witness :
    compareLoop [] [] [("a.json", Raw.arr [recA]), ("empty.json", Raw.arr [])] =
    compareLoop [] [] [("a.json", Raw.arr [recA])] :=
  (compareLoop_skips_falsy [] [] ("empty.json", Raw.arr []) (by decide)).1
    [("a.json", Raw.arr [recA])] []

/-! ## Claim C6: best lap and leaderboard validity -/

theorem foldl_min_le :
    ∀ (ts : List ℚ) (t : ℚ), ts.foldl min t ≤ t ∧ ∀ x ∈ ts, ts.foldl min t ≤ x := by
  intro ts
  induction ts with
  | nil =>
    intro t
    exact ⟨le_refl t, by simp⟩
  | cons y ys ih =>
    intro t
    simp only [List.foldl_cons]
    refine ⟨le_trans (ih (min t y)).1 (min_le_left t y), ?_⟩
    intro x hx
    rcases List.mem_cons.mp hx with rfl | hx
    · exact le_trans (ih (min t x)).1 (min_le_right t x)
    · exact (ih (min t y)).2 x hx

theorem foldl_min_mem :
    ∀ (ts : List ℚ) (t : ℚ), ts.foldl min t = t ∨ ts.foldl min t ∈ ts := by
  intro ts
  induction ts with
  | nil =>
    intro t
    exact Or.inl rfl
  | cons y ys ih =>
    intro t
    simp only [List.foldl_cons]
    rcases ih (min t y) with h | h
    · rcases min_choice t y with hm | hm
      · exact Or.inl (h.trans hm)
      · exact Or.inr (by rw [h, hm]; simp)
    · exact Or.inr (by simp [h])

/-- C6 counterexample: on the lap times [0, 98.2, 97.5] of the claim, the
best-lap rule of the spec (minimum over the session, valid only when strictly
positive) yields minimum 0 and no leaderboard entry; the claim asserts that
this very input gives a valid best of 97.5, which contradicts the rule the
same claim states. -/
theorem best_lap_zero_example :
    best_lap cexTimes = some 0 ∧ leaderboardEntry cexTimes = none := by
  have hb : best_lap cexTimes = some 0 := by
    show some (min (min 0 (982 / 10)) (975 / 10)) = some 0
    rw [min_eq_left (by norm_num), min_eq_left (by norm_num)]
  refine ⟨hb, ?_⟩
  simp [leaderboardEntry, hb]

/-- C6 (amended): best_lap returns the minimum of the lap-time field over the
session, the session contributes a leaderboard entry exactly when that minimum
is strictly positive, and when the minimum is not positive the session
contributes nothing; in particular the lap times [0, 98.2, 97.5] have best lap
0 and contribute no entry (not a valid best of 97.5). -/
theorem best_lap_strict_min (ts : List ℚ) (m : ℚ) (h : best_lap ts = some m) :
    m ∈ ts ∧ (∀ x ∈ ts, m ≤ x) ∧
    leaderboardEntry ts = if 0 < m then some m else none := by
  cases ts with
  | nil => exact absurd h (by simp [best_lap])
  | cons t ts =>
    have hm : m = ts.foldl min t := by
      have := h
      simp only [best_lap, Option.some.injEq] at this
      exact this.symm
    subst hm
    refine ⟨?_, ?_, ?_⟩
    · rcases foldl_min_mem ts t with he | he
      · rw [he]
        simp
      · exact List.mem_cons.mpr (Or.inr he)
    · intro x hx
      rcases List.mem_cons.mp hx with rfl | hx
      · exact (foldl_min_le ts x).1
      · exact (foldl_min_le ts t).2 x hx
    · simp [leaderboardEntry, h]

/-- Witness for the amended C6 theorem: lap times [3, 2] have best lap 2,
which is strictly positive and becomes the leaderboard entry. -/
theorem best_lap_strict_min_witness :
    leaderboardEntry [(3 : ℚ), 2] = some 2 := by
  have hb : best_lap [(3 : ℚ), 2] = some 2 := by
    show some (min 3 2) = some 2
    rw [min_eq_right (by norm_num)]
  have h := (best_lap_strict_min [(3 : ℚ), 2] 2 hb).2.2
  rw [h, if_pos (by norm_num)]

/-! ## Claim C7: bounded comparison selection -/

/-- C7 (confirmed): with 4 sessions already selected, selecting a 5th is
rejected by the bound that src/app.py passes to both comparison multiselects
(max_selections = 4), and the rejection leaves the existing selection
unchanged. -/
theorem multiselect_rejects_fifth (sel : List String) (x : String)
    (h : sel.length = 4) :
    multiselectAdd compare_files_max sel x = sel ∧
    multiselectAdd selected_laps_max sel x = sel := by
  unfold multiselectAdd compare_files_max selected_laps_max
  rw [h]
  simp

/-- Witness for the C7 theorem: a concrete selection of four sessions is
unchanged by a fifth choice. -/
theorem multiselect_rejects_fifth_witness :
    multiselectAdd compare_files_max ["a", "b", "c", "d"] "e" = ["a", "b", "c", "d"] ∧
    multiselectAdd selected_laps_max ["a", "b", "c", "d"] "e" = ["a", "b", "c", "d"] :=
  multiselect_rejects_fifth ["a", "b", "c", "d"] "e" rfl

/-! ## Claim C8: telemetry fetches are not memoized -/

/-- C8 counterexample: two consecutive fetches of the same telemetry file id
perform two remote calls; the claim requires that the second fetch within the
cache window performs no remote call, but load_gcs_json has no cache at all,
so the remote-call count after the second fetch is 2, not 1. -/
theorem load_gcs_json_second_remote_call :
    (load_gcs_json (fun _ => ([] : List Rec)) "session.json"
      (load_gcs_json (fun _ => ([] : List Rec)) "session.json" 0).snd).snd = 2 :=
  rfl

/-- C8 (amended): load_gcs_json contacts the object store on every call (the
remote-call count increases by one per fetch, with no memoization window);
two fetches of the same file id return identical content only because each
reads the store afresh and the store content for that id is assumed unchanged
between the calls. -/
theorem load_gcs_json_uncached (store : String → List Rec) (blob : String)
    (n : Nat) :
    (load_gcs_json store blob n).fst = store blob ∧
    (load_gcs_json store blob n).snd = n + 1 ∧
    (load_gcs_json store blob (load_gcs_json store blob n).snd).fst =
      (load_gcs_json store blob n).fst :=
  ⟨rfl, rfl, rfl⟩

/-! ## Claim C9: sessions without a current_lap field -/

/-- C9 (confirmed): when every record of a non-empty loaded session lacks the
current_lap field, the lap selector offers exactly the single option 0 and the
plotting frame is the whole unfiltered session, whatever lap is selected. -/
theorem tab1_missing_lap_column (df : List TRec) (_hne : df ≠ [])
    (h : ∀ r ∈ df, r.current_lap = none) :
    tab1Options df = [some 0] ∧ ∀ sel, lapFrame df sel = df := by
  have hcol : hasLapColumn df = false := by
    rw [hasLapColumn, Bool.eq_false_iff]
    intro hany
    obtain ⟨r, hr, hp⟩ := List.any_eq_true.mp hany
    rw [h r hr] at hp
    simp at hp
  constructor
  · rw [tab1Options, tab1Laps, hcol]
    simp [List.insertionSort, List.orderedInsert]
  · intro sel
    rw [lapFrame, hcol]
    simp

/-- Witness for the C9 theorem: the one-record session without a current_lap
field offers the single lap option 0 and plots the whole frame. -/
theorem tab1_missing_lap_column_witness :
    tab1Options [({ current_lap := none } : TRec)] = [some 0] ∧
    lapFrame [({ current_lap := none } : TRec)] (some 5) =
      [({ current_lap := none } : TRec)] :=
  ⟨(tab1_missing_lap_column [({ current_lap := none } : TRec)] (by decide)
      (by decide)).1,
   (tab1_missing_lap_column [({ current_lap := none } : TRec)] (by decide)
      (by decide)).2 (some 5)⟩

/-! ## Claim C10: action classification -/

/-- C10 (confirmed): the action classification is total and assigns exactly
one label: Brake exactly when brake exceeds 0.1 (priority over throttle),
Accelerate exactly when brake does not exceed 0.1 and throttle does, and Coast
exactly when neither exceeds 0.1. -/
theorem classify_total_priority (b t : ℚ) :
    (classify b t = "Brake" ↔ (1 : ℚ) / 10 < b) ∧
    (classify b t = "Accelerate" ↔ b ≤ (1 : ℚ) / 10 ∧ (1 : ℚ) / 10 < t) ∧
    (classify b t = "Coast" ↔ b ≤ (1 : ℚ) / 10 ∧ t ≤ (1 : ℚ) / 10) := by
  unfold classify
  by_cases hb : (1 : ℚ) / 10 < b
  · rw [if_pos hb]
    exact ⟨⟨fun _ => hb, fun _ => rfl⟩,
      ⟨fun hcon => absurd hcon (by decide),
       fun hc => absurd hb (not_lt.mpr hc.1)⟩,
      ⟨fun hcon => absurd hcon (by decide),
       fun hc => absurd hb (not_lt.mpr hc.1)⟩⟩
  · rw [if_neg hb]
    have hble : b ≤ (1 : ℚ) / 10 := not_lt.mp hb
    by_cases ht : (1 : ℚ) / 10 < t
    · rw [if_pos ht]
      exact ⟨⟨fun hcon => absurd hcon (by decide), fun hc => absurd hc hb⟩,
        ⟨fun _ => ⟨hble, ht⟩, fun _ => rfl⟩,
        ⟨fun hcon => absurd hcon (by decide),
         fun hc => absurd ht (not_lt.mpr hc.2)⟩⟩
    · rw [if_neg ht]
      have htle : t ≤ (1 : ℚ) / 10 := not_lt.mp ht
      exact ⟨⟨fun hcon => absurd hcon (by decide), fun hc => absurd hc hb⟩,
        ⟨fun hcon => absurd hcon (by decide), fun hc => absurd hc.2 ht⟩,
        ⟨fun _ => ⟨hble, htle⟩, fun _ => rfl⟩⟩

/-- Witness for the C10 theorem: a sample with brake 0.5 and throttle 0.9 is
classified Brake, the brake label taking priority. -/
theorem classify_total_priority_witness :
    classify ((1 : ℚ) / 2) ((9 : ℚ) / 10) = "Brake" :=
  (classify_total_priority ((1 : ℚ) / 2) ((9 : ℚ) / 10)).1.mpr (by norm_num)

end GT7
